import Mathlib

/-!
# Verification of the ExoCTK contamination/model-grid core

Shallow embedding of the two source files of this repository:

* `ExoCTK/contam_visibility/sossFieldSim.py` — the field-rotation
  compositing engine (`sossFieldSim`): per-angle star projection, the
  optical-field membership filter, the integer window-clipping
  arithmetic, and the accumulation of flux-scaled model cutouts into a
  simulation cube;
* `ExoCTK/core.py` — the `ModelGrid` lookup structure (`get`,
  `grid_interp`, `customize`) and the companion/color bookkeeping.

Real numbers of the Python source are modelled as `ℚ`.  The two
transcendental quantities of the engine — the cosine/sine pair of
`np.pi/2 + APA/radeg` and the flux scale `10**(-0.4*(m - m_target))` —
enter the control flow only through their (real) values, so each angle
of the sweep is represented by its `(cos, sin)` pair of rationals and
the power function by an opaque rational function carried in the
configuration.  Every claim proved below is independent of the actual
values of these stand-ins.
-/

namespace SossFieldSim

/-- `niriss_pixel_scale = 0.065` arcsec (sossFieldSim.py line 74). -/
def nirissPixelScale : ℚ := 65 / 1000

/-- Sweet-spot reference pixel x, `sweetSpot['x'] = 856` (line 75). -/
def sweetSpotX : ℚ := 856

/-- Sweet-spot reference pixel y, `sweetSpot['y'] = 107` (line 75). -/
def sweetSpotY : ℚ := 107

/-- Output-frame height, `dimY = 2048` (line 96). -/
def dimY : ℤ := 2048

/-- `stars['dx'] = (cos(pi/2+APA/radeg)*dRA - sin(pi/2+APA/radeg)*dDEC)/niriss_pixel_scale`
(line 108); `c`, `s` stand for the cosine and sine of `pi/2 + APA/radeg`. -/
def projDx (c s dRA dDEC : ℚ) : ℚ :=
  (c * dRA - s * dDEC) / nirissPixelScale

/-- `stars['dy'] = (sin(pi/2+APA/radeg)*dRA + cos(pi/2+APA/radeg)*dDEC)/niriss_pixel_scale`
(line 109). -/
def projDy (c s dRA dDEC : ℚ) : ℚ :=
  (s * dRA + c * dDEC) / nirissPixelScale

/-- `stars['x'] = stars['dx'] + sweetSpot['x']` (line 110). -/
def posX (c s dRA dDEC : ℚ) : ℚ := projDx c s dRA dDEC + sweetSpotX

/-- `stars['y'] = stars['dy'] + sweetSpot['y']` (line 111). -/
def posY (c s dRA dDEC : ℚ) : ℚ := projDy c s dRA dDEC + sweetSpotY

/-- The Direct Image NIRISS POM field-of-view filter (line 151):
`(x >= -162) & (x <= 2047+185) & (y >= -154) & (y <= 2047+174)`. -/
def inFOV (x y : ℚ) : Prop :=
  -162 ≤ x ∧ x ≤ 2047 + 185 ∧ -154 ≤ y ∧ y ≤ 2047 + 174

instance (x y : ℚ) : Decidable (inFOV x y) := by
  unfold inFOV; infer_instance

/-- Python 3 `round` on the star's pixel offset (lines 156-157):
round half to even. -/
def pyRound (q : ℚ) : ℤ :=
  let f := ⌊q⌋
  let r := q - f
  if r < 1/2 then f
  else if 1/2 < r then f + 1
  else if f % 2 = 0 then f else f + 1

/-- `k = np.where(teffMod == T)[0][0]` (line 160): index of the first
entry of `teffMod` equal to `T`.  (If `T` is absent Python raises
`IndexError`; this cannot happen in a run because every `starsT[j]`
is itself drawn from `teffMod` at lines 66-71, so the total default
`List.findIdx` — which returns the length when nothing matches — is
never exercised out of bounds.) -/
def kIndex (teffMod : List ℚ) (T : ℚ) : ℕ :=
  teffMod.findIdx (fun v => decide (v = T))

/-- One catalog star as the engine sees it: angular offsets from the
target in arcsec (`dRA`, `dDEC`, lines 78-79), J magnitude and the
assigned model temperature `T` (lines 82-85). -/
structure FieldStar where
  dRA : ℚ
  dDEC : ℚ
  jmag : ℚ
  T : ℚ
  deriving DecidableEq, Repr

/-- The run-constant data of `sossFieldSim`: the model metadata from
`modelsInfo.sav` (lines 56-64), the output width argument `dimX`, the
model arrays (as total functions of model index, row, col), and the
sweet-spot J magnitude.  `pow10` is the opaque stand-in for
`q ↦ 10**q` used by the flux scale at line 162. -/
structure EngineConfig where
  modelPadX : ℤ
  modelPadY : ℤ
  dimXmod : ℤ
  dimYmod : ℤ
  dimX : ℤ
  teffMod : List ℚ
  models : ℕ → ℤ → ℤ → ℚ
  modelO12 : ℕ → ℕ → ℤ → ℤ → ℚ
  pow10 : ℚ → ℚ
  sweetJmag : ℚ

/-- `fluxscale = 10.0**(-0.4*(jmag - sweetSpot['jmag']))` (line 162). -/
def fluxScale (cfg : EngineConfig) (jmag : ℚ) : ℚ :=
  cfg.pow10 (-(2/5) * (jmag - cfg.sweetJmag))

/-- The clipped overlap window (lines 175-180): `x0`, `y0` are the
destination-side start pixels, `mx0 ≤ mx1` / `my0 ≤ my1` bound the
source-side slice. -/
structure ClipOut where
  x0 : ℤ
  y0 : ℤ
  mx0 : ℤ
  mx1 : ℤ
  my0 : ℤ
  my1 : ℤ
  deriving DecidableEq, Repr

/-- The per-star window arithmetic of lines 165-180.  `none` is the
`continue` of lines 170-173 (no overlap in some axis); `some` carries
the clipped window.  The destination slice is
`[y0 : y0+(my1-my0), x0 : x0+(mx1-mx0)]` and the source slice
`[my0 : my1, mx0 : mx1]`, exactly as in lines 186-190, so both sides
use the same width `mx1-mx0` and height `my1-my0` by construction. -/
def clipWindow (modelPadX modelPadY dimXmod dimYmod dimX dimYv intx inty : ℤ) :
    Option ClipOut :=
  let mx0 := modelPadX - intx
  let mx1 := modelPadX - intx + dimX
  let my0 := modelPadY - inty
  let my1 := modelPadY - inty + dimYv
  if mx0 > dimXmod ∨ my0 > dimYmod then none
  else if mx1 < 0 ∨ my1 < 0 then none
  else some
    { x0 := if mx0 < 0 then -mx0 else 0
      y0 := if my0 < 0 then -my0 else 0
      mx0 := if 0 ≤ mx0 then mx0 else 0
      mx1 := if mx1 > dimXmod then dimXmod else mx1
      my0 := if 0 ≤ my0 then my0 else 0
      my1 := if my1 > dimYmod then dimYmod else my1 }

/-- A write event on the simulation cube: `refWrite p k` is the
overwriting assignment of reference plane `p ∈ {0,1}` executed at
sweep index `k` (lines 186-187); `accum p k` is the additive
accumulation `simuCube[p] += …` executed at sweep index `k`
(line 190). -/
inductive CubeEvent where
  | refWrite (plane : ℕ) (kPA : ℕ)
  | accum (plane : ℕ) (kPA : ℕ)
  deriving DecidableEq, Repr

/-- The engine state: the cube as plane-index → row → col → value,
plus the chronological log of cube write events. -/
structure EngineState where
  cube : ℕ → ℤ → ℤ → ℚ
  log : List CubeEvent

/-- `simuCube = np.zeros([nPA+2, dimY, dimX])` (line 97). -/
def initState : EngineState := { cube := fun _ _ _ => 0, log := [] }

/-- The overwriting patch assignment
`plane[y0:y0+my1-my0, x0:x0+mx1-mx0] = src[my0:my1, mx0:mx1] * fs`
of lines 186-187, as a pointwise function update. -/
def writePatch (p : ℤ → ℤ → ℚ) (w : ClipOut) (src : ℤ → ℤ → ℚ) (fs : ℚ) :
    ℤ → ℤ → ℚ :=
  fun yy xx =>
    if w.y0 ≤ yy ∧ yy < w.y0 + (w.my1 - w.my0) ∧
       w.x0 ≤ xx ∧ xx < w.x0 + (w.mx1 - w.mx0) then
      src (w.my0 + (yy - w.y0)) (w.mx0 + (xx - w.x0)) * fs
    else p yy xx

/-- The additive patch
`plane[y0:y0+my1-my0, x0:x0+mx1-mx0] += src[my0:my1, mx0:mx1] * fs`
of line 190. -/
def addPatch (p : ℤ → ℤ → ℚ) (w : ClipOut) (src : ℤ → ℤ → ℚ) (fs : ℚ) :
    ℤ → ℤ → ℚ :=
  fun yy xx =>
    if w.y0 ≤ yy ∧ yy < w.y0 + (w.my1 - w.my0) ∧
       w.x0 ≤ xx ∧ xx < w.x0 + (w.mx1 - w.mx0) then
      p yy xx + src (w.my0 + (yy - w.y0)) (w.mx0 + (xx - w.x0)) * fs
    else p yy xx

/-- Processing of one star inside the angle loop (lines 150-190):
the FOV filter of line 151, the rounding of lines 156-157, the window
arithmetic of lines 165-180, the reference-plane write branch of
lines 183-187 (guard `intx == 0 ∧ inty == 0 ∧ kPA == 0`) and the
field-star accumulation branch of lines 189-190 (guard
`intx ≠ 0 ∨ inty ≠ 0`). -/
def starStep (cfg : EngineConfig) (kPA : ℕ) (c s : ℚ) (st : FieldStar)
    (es : EngineState) : EngineState :=
  if inFOV (posX c s st.dRA st.dDEC) (posY c s st.dRA st.dDEC) then
    let intx := pyRound (projDx c s st.dRA st.dDEC)
    let inty := pyRound (projDy c s st.dRA st.dDEC)
    let k := kIndex cfg.teffMod st.T
    let fs := fluxScale cfg st.jmag
    match clipWindow cfg.modelPadX cfg.modelPadY cfg.dimXmod cfg.dimYmod
        cfg.dimX dimY intx inty with
    | none => es
    | some w =>
      let es1 :=
        if intx = 0 ∧ inty = 0 ∧ kPA = 0 then
          { cube := fun p =>
              if p = 0 then writePatch (es.cube 0) w (cfg.modelO12 k 0) fs
              else if p = 1 then writePatch (es.cube 1) w (cfg.modelO12 k 1) fs
              else es.cube p
            log := es.log ++ [CubeEvent.refWrite 0 kPA, CubeEvent.refWrite 1 kPA] }
        else es
      if intx ≠ 0 ∨ inty ≠ 0 then
        { cube := fun p =>
            if p = kPA + 2 then addPatch (es1.cube (kPA + 2)) w (cfg.models k) fs
            else es1.cube p
          log := es1.log ++ [CubeEvent.accum (kPA + 2) kPA] }
      else es1
  else es

/-- One iteration of the `for kPA in range(PAtab.size)` loop
(lines 104-190): the stars of the field processed in order at the
angle whose `(cos, sin)` pair of `pi/2 + APA/radeg` is `(c, s)`. -/
def angleStep (cfg : EngineConfig) (kPA : ℕ) (c s : ℚ)
    (stars : List FieldStar) (es : EngineState) : EngineState :=
  stars.foldl (fun acc st => starStep cfg kPA c s st acc) es

/-- The sweep loop body over an explicit list of (index, angle)
pairs. -/
def runPairs (cfg : EngineConfig) (stars : List FieldStar)
    (l : List (ℕ × ℚ × ℚ)) (es : EngineState) : EngineState :=
  l.foldl (fun acc p => angleStep cfg p.1 p.2.1 p.2.2 stars acc) es

/-- The whole sweep: the angle list carries one `(cos, sin)` pair per
position angle; `kPA` is the position in the list, matching
`PAtab = np.arange(PAmin, PAmax, dPA)` with `kPA` its index.  For the
default sweep the list has 360 entries and its head is the pair for
`APA = 0`, namely `(cos(pi/2), sin(pi/2)) = (0, 1)`. -/
def runSweep (cfg : EngineConfig) (angles : List (ℚ × ℚ))
    (stars : List FieldStar) (es : EngineState) : EngineState :=
  runPairs cfg stars angles.enum es

/-- The cube events one star emits at sweep index `kPA` (read off the
branch structure of lines 150-190 of `starStep`). -/
def starEvents (cfg : EngineConfig) (kPA : ℕ) (c s : ℚ)
    (st : FieldStar) : List CubeEvent :=
  if inFOV (posX c s st.dRA st.dDEC) (posY c s st.dRA st.dDEC) then
    match clipWindow cfg.modelPadX cfg.modelPadY cfg.dimXmod cfg.dimYmod
        cfg.dimX dimY (pyRound (projDx c s st.dRA st.dDEC))
        (pyRound (projDy c s st.dRA st.dDEC)) with
    | none => []
    | some _ =>
      (if pyRound (projDx c s st.dRA st.dDEC) = 0 ∧
          pyRound (projDy c s st.dRA st.dDEC) = 0 ∧ kPA = 0 then
        [CubeEvent.refWrite 0 kPA, CubeEvent.refWrite 1 kPA]
      else []) ++
      (if pyRound (projDx c s st.dRA st.dDEC) ≠ 0 ∨
          pyRound (projDy c s st.dRA st.dDEC) ≠ 0 then
        [CubeEvent.accum (kPA + 2) kPA]
      else [])
  else []

/-- The cube events of one whole angle iteration, in star order. -/
def angleEvents (cfg : EngineConfig) (kPA : ℕ) (c s : ℚ)
    (stars : List FieldStar) : List CubeEvent :=
  (stars.map (starEvents cfg kPA c s)).flatten

/-- The cube events of a sweep over explicit (index, angle) pairs. -/
def pairEvents (cfg : EngineConfig) (stars : List FieldStar)
    (l : List (ℕ × ℚ × ℚ)) : List CubeEvent :=
  (l.map (fun p => angleEvents cfg p.1 p.2.1 p.2.2 stars)).flatten

/-- The cube events of the whole sweep. -/
def sweepEvents (cfg : EngineConfig) (angles : List (ℚ × ℚ))
    (stars : List FieldStar) : List CubeEvent :=
  pairEvents cfg stars angles.enum

/-- A star takes the reference-plane write branch of lines 183-187 at
the angle `(c, s)` (apart from the `kPA == 0` conjunct): it is inside
the field of view, its window is not rejected, and its pixel offset
rounds to `(0, 0)`. -/
def triggersRef (cfg : EngineConfig) (c s : ℚ) (st : FieldStar) : Bool :=
  decide (inFOV (posX c s st.dRA st.dDEC) (posY c s st.dRA st.dDEC)) &&
  (clipWindow cfg.modelPadX cfg.modelPadY cfg.dimXmod cfg.dimYmod cfg.dimX
    dimY (pyRound (projDx c s st.dRA st.dDEC))
    (pyRound (projDy c s st.dRA st.dDEC))).isSome &&
  decide (pyRound (projDx c s st.dRA st.dDEC) = 0) &&
  decide (pyRound (projDy c s st.dRA st.dDEC) = 0)

/-- The two stars of the counterexample run: both at zero angular
offset from the target, so both round to pixel offset `(0, 0)` at
every angle. -/
def cexStars : List FieldStar :=
  [⟨0, 0, 10, 5000⟩, ⟨0, 0, 12, 5000⟩]

/-- One row of the color table of `modelsInfo.sav` (lines 62-64):
parallel entries of `jhMod`, `hkMod`, `teffMod`. -/
structure ColorEntry where
  jh : ℚ
  hk : ℚ
  teff : ℚ
  deriving DecidableEq, Repr

/-- `color_separation = (J_Hobs[j]-jhMod)**2 + (H_Kobs[j]-hkMod)**2`
(line 69) at one table entry. -/
def colorSeparation (jh hk : ℚ) (e : ColorEntry) : ℚ :=
  (jh - e.jh) ^ 2 + (hk - e.hk) ^ 2

/-- The scan of `np.argmin` (line 70): `i` is the index of the next
element, `best`/`bv` the index and value of the least element seen so
far; a later element replaces the best only when strictly smaller, so
the first minimum wins. -/
def argminAux : ℕ → ℕ → ℚ → List ℚ → ℕ
  | _, best, _, [] => best
  | i, best, bv, v :: vs =>
    if v < bv then argminAux (i + 1) i v vs else argminAux (i + 1) best bv vs

/-- `np.argmin` over a list: index of the first minimum (0 on the
empty list, where NumPy raises instead). -/
def argminIdx : List ℚ → ℕ
  | [] => 0
  | v :: vs => argminAux 1 0 v vs

/-- The temperature assignment of lines 68-71 for one star:
`starsT[j] = teffMod[np.argmin(color_separation)]`; `none` models the
`ValueError` NumPy raises on an empty table. -/
def assignTemp (table : List ColorEntry) (jh hk : ℚ) : Option ℚ :=
  match table with
  | [] => none
  | _ :: _ => (table[argminIdx (table.map (colorSeparation jh hk))]?).map
      ColorEntry.teff

/-- Concrete color table exercising a tie: entries 1 and 2 are at the
same color distance from the probe `(1, 0)`. -/
def tableW : List ColorEntry :=
  [⟨0, 0, 3000⟩, ⟨1, 0, 4000⟩, ⟨1, 0, 5000⟩]

/-- The 360 angles of the default sweep `PAtab = np.arange(0, 360, 1)`
as `(cos, sin)` pairs of `pi/2 + APA/radeg`; the head is the exact
pair `(0, 1)` for `APA = 0`.  The stand-in pairs for the later 359
angles are irrelevant here: the counterexample stars sit at zero
angular offset, so their projection is `(0, 0)` at every angle
whatever the pair's value. -/
def cexAngles : List (ℚ × ℚ) := List.replicate 360 (0, 1)

/-- Recognizer for additive-accumulation events. -/
def isAccum : CubeEvent → Bool
  | CubeEvent.accum _ _ => true
  | CubeEvent.refWrite _ _ => false

/-- A small concrete configuration used by the closed witness runs:
`modelPadX = modelPadY = 10`, model array 300×2100, output width 256,
a one-entry temperature table.  Under it the sweet-spot window is
never skipped (`mx0 = 10 ≤ 300`, `my0 = 10 ≤ 2100`, `mx1 = 266 ≥ 0`,
`my1 = 2058 ≥ 0`). -/
def cfgA : EngineConfig :=
  { modelPadX := 10, modelPadY := 10, dimXmod := 300, dimYmod := 2100
    dimX := 256, teffMod := [5000]
    models := fun _ _ _ => 1, modelO12 := fun _ _ _ _ => 1
    pow10 := fun _ => 1, sweetJmag := 10 }

/-- One field record per star as `sossFieldSim` builds it from the
catalog (lines 24-28): parallel arrays of positions and J/H/K
magnitudes. -/
structure RawField where
  allRA : List ℚ
  allDEC : List ℚ
  Jmag : List ℚ
  Hmag : List ℚ
  Kmag : List ℚ
  deriving DecidableEq, Repr

/-- The synthetic companion record `binComp = [deltaRA, deltaDEC, J,
H, K]` (line 15). -/
structure BinComp where
  dRA : ℚ
  dDEC : ℚ
  J : ℚ
  H : ℚ
  K : ℚ
  deriving DecidableEq, Repr

/-- The companion-injection block of lines 38-47, one append per
array.  `cosDec` stands for `np.cos(allDEC[targetIndex]*deg2rad)`.
Line 43 of the source reads `Hmag = np.append(Kmag, binComp[3])`: the
new H-magnitude array is built from the *K*-magnitude array, so every
pre-existing star's H magnitude is replaced by its K magnitude. -/
def appendCompanion (f : RawField) (targetIndex : ℕ) (cosDec : ℚ)
    (b : BinComp) : RawField :=
  { allRA := f.allRA ++ [f.allRA.getD targetIndex 0 + b.dRA / 3600 / cosDec]
    allDEC := f.allDEC ++ [f.allDEC.getD targetIndex 0 + b.dDEC / 3600]
    Jmag := f.Jmag ++ [b.J]
    Hmag := f.Kmag ++ [b.H]
    Kmag := f.Kmag ++ [b.K] }

/-- `J_Hobs = Jmag - Hmag` (lines 29 and 45). -/
def jhObs (f : RawField) : List ℚ :=
  List.zipWith (fun a b => a - b) f.Jmag f.Hmag

/-- `H_Kobs = Hmag - Kmag` (lines 30 and 46). -/
def hkObs (f : RawField) : List ℚ :=
  List.zipWith (fun a b => a - b) f.Hmag f.Kmag

/-- A one-star field whose H and K magnitudes differ. -/
def field0 : RawField :=
  { allRA := [10], allDEC := [20], Jmag := [10], Hmag := [9], Kmag := [8] }

/-- A concrete companion record. -/
def binComp0 : BinComp := { dRA := 0, dDEC := 0, J := 5, H := 5, K := 5 }

end SossFieldSim

namespace ExoCTKCore

/-- One row of the `ModelGrid.data` table (core.py lines 349-393):
the three varying parameters plus the backing file, identified here
by a numeric id. -/
structure GridRow where
  Teff : ℚ
  logg : ℚ
  FeH : ℚ
  filename : ℕ
  deriving DecidableEq, Repr

/-- `min` of a table column (`min(table['Teff'])`, line 396).  Python
raises on an empty column; the 0 default is never reached under the
nonempty-table hypotheses used below. -/
def listMin : List ℚ → ℚ
  | [] => 0
  | x :: xs => xs.foldl min x

/-- `max` of a table column (line 396). -/
def listMax : List ℚ → ℚ
  | [] => 0
  | x :: xs => xs.foldl max x

/-- Sorted insertion without duplicates, the building block of
`np.unique`. -/
def insertSorted (x : ℚ) : List ℚ → List ℚ
  | [] => [x]
  | y :: ys =>
    if x < y then x :: y :: ys
    else if x = y then y :: ys
    else y :: insertSorted x ys

/-- `np.unique` (line 399): the sorted list of distinct values. -/
def uniqueSorted (l : List ℚ) : List ℚ := l.foldr insertSorted []

/-- The in-memory state of a `ModelGrid` (attributes set at lines
331-334 and 393-401). -/
structure ModelGrid where
  data : List GridRow
  Teff_rng : ℚ × ℚ
  logg_rng : ℚ × ℚ
  FeH_rng : ℚ × ℚ
  Teff_vals : List ℚ
  logg_vals : List ℚ
  FeH_vals : List ℚ
  wave_rng : ℚ × ℚ
  n_bins : ℕ
  deriving DecidableEq, Repr

/-- The row filter of `customize` (lines 646-651): all three
parameters within their inclusive bounds. -/
def rowInRanges (tr lr fr : ℚ × ℚ) (r : GridRow) : Bool :=
  decide (tr.1 ≤ r.Teff ∧ r.Teff ≤ tr.2 ∧ lr.1 ≤ r.logg ∧ r.logg ≤ lr.2 ∧
    fr.1 ≤ r.FeH ∧ r.FeH ≤ fr.2)

/-- `ModelGrid.customize` (lines 616-674).  Following the source
order: `wave_rng` and `n_bins` are overwritten first (lines 642-643,
with `n_bins or self.n_bins` keeping the old value for a falsy
argument); the table is filtered (lines 646-651); an empty result
restores the table copy (lines 660-663); the ranges and value lists
are then recomputed from the resulting table (lines 666-671) in every
case. -/
def ModelGrid.customize (g : ModelGrid) (Teff_rng logg_rng FeH_rng wave_rng : ℚ × ℚ)
    (n_bins : ℕ) : ModelGrid :=
  let grid := g.data
  let filtered := grid.filter (rowInRanges Teff_rng logg_rng FeH_rng)
  let d := if filtered.isEmpty then grid else filtered
  { data := d
    wave_rng := wave_rng
    n_bins := if n_bins ≠ 0 then n_bins else g.n_bins
    Teff_rng := (listMin (d.map GridRow.Teff), listMax (d.map GridRow.Teff))
    logg_rng := (listMin (d.map GridRow.logg), listMax (d.map GridRow.logg))
    FeH_rng := (listMin (d.map GridRow.FeH), listMax (d.map GridRow.FeH))
    Teff_vals := uniqueSorted (d.map GridRow.Teff)
    logg_vals := uniqueSorted (d.map GridRow.logg)
    FeH_vals := uniqueSorted (d.map GridRow.FeH) }

/-- What one backing FITS file yields (lines 452-463): the raw
wavelength scale in Angstroms (either read from the file or generated
from `CRVAL1`/`CDELT1`), the flux rows (one per mu), and the mu
array. -/
structure RawModel where
  wave : List ℚ
  flux : List (List ℚ)
  mu : List ℚ
  deriving DecidableEq, Repr

/-- The record `get` returns (lines 474-485). -/
structure SpecDict where
  Teff : ℚ
  logg : ℚ
  FeH : ℚ
  wave : List ℚ
  flux : List (List ℚ)
  mu : List ℚ
  deriving DecidableEq, Repr

/-- The failure modes of `get`/`grid_interp`: the out-of-range
diagnostic of lines 495-497 (printed, then `None` returned), and the
`UnboundLocalError` grid interpolation always raises. -/
inductive GetError where
  | outOfRange
  | unboundLocalNewFlux
  deriving DecidableEq, Repr

/-- `ModelGrid.grid_interp` (lines 499-575).  Its body evaluates
`mu_index = range(new_flux.shape[0])` at line 542 before the local
`new_flux` is first assigned (line 546), so every call raises
`UnboundLocalError` and never produces a record. -/
def ModelGrid.grid_interp (_ : ModelGrid) (_ _ _ : ℚ) : Except GetError SpecDict :=
  Except.error GetError.unboundLocalNewFlux

/-- The exact-match mask of lines 436-438 and 445-447 on one row. -/
def rowMatches (Teff logg FeH : ℚ) (r : GridRow) : Bool :=
  decide (r.Teff = Teff ∧ r.logg = logg ∧ r.FeH = FeH)

/-- `flux = raw_flux[:, idx]` (line 471): one flux row trimmed to the
wavelength positions inside the configured range. -/
def trimRow (waveUm : List ℚ) (rng : ℚ × ℚ) (row : List ℚ) : List ℚ :=
  (waveUm.zip row).filterMap fun p =>
    if rng.1 ≤ p.1 ∧ p.1 ≤ rng.2 then some p.2 else none

/-- `ModelGrid.get` (lines 403-497).  The `in_grid` range check of
lines 426-431 comes first; out of range, the source prints a
diagnostic and returns `None` (lines 495-497), modelled as the
`outOfRange` error.  In range, an exact grid point is looked up
(lines 436-447; the source's membership idiom is modelled as "some
row matches"), its file is loaded lazily through `loader`, the
wavelength scale is converted from Angstroms to microns (line 466)
and trimmed with the flux to `wave_rng` (lines 469-472); with no
exact match the call delegates to `grid_interp` (line 490). -/
def ModelGrid.get (g : ModelGrid) (loader : GridRow → RawModel)
    (Teff logg FeH : ℚ) : Except GetError SpecDict :=
  if g.Teff_rng.1 ≤ Teff ∧ Teff ≤ g.Teff_rng.2 ∧
      g.logg_rng.1 ≤ logg ∧ logg ≤ g.logg_rng.2 ∧
      g.FeH_rng.1 ≤ FeH ∧ FeH ≤ g.FeH_rng.2 then
    match g.data.find? (rowMatches Teff logg FeH) with
    | some row =>
      let raw := loader row
      let waveUm := raw.wave.map (fun w => w * (1 / 10000))
      Except.ok
        { Teff := Teff, logg := logg, FeH := FeH
          wave := waveUm.filter (fun w =>
            decide (g.wave_rng.1 ≤ w ∧ w ≤ g.wave_rng.2))
          flux := raw.flux.map (trimRow waveUm g.wave_rng)
          mu := raw.mu }
    | none => g.grid_interp Teff logg FeH
  else Except.error GetError.outOfRange

/-- A concrete two-point grid in its freshly initialized state. -/
def g0 : ModelGrid :=
  { data := [⟨3000, 4, 0, 0⟩, ⟨3500, 4, 0, 1⟩]
    Teff_rng := (3000, 3500)
    logg_rng := (4, 4)
    FeH_rng := (0, 0)
    Teff_vals := [3000, 3500]
    logg_vals := [4]
    FeH_vals := [0]
    wave_rng := (0, 40)
    n_bins := 10000000000 }

/-- A concrete loader: three wavelength samples (Angstroms), one flux
row, one mu value. -/
def loader0 : GridRow → RawModel :=
  fun _ => { wave := [10000, 20000, 500000], flux := [[1, 2, 3]], mu := [1] }

end ExoCTKCore

namespace SossFieldSim

/-- C5: for every position angle (every cosine/sine pair `(c, s)` of
`pi/2 + APA/radeg`), the engine's projection formula applied to the
target star (`dRA = 0`, `dDEC = 0`) yields pixel offset `(0, 0)` and
absolute position equal to the sweet-spot reference pixel
`(856, 107)` — the rotation is a no-op at zero relative offset
regardless of the angle. -/
theorem target_projection_noop (c s : ℚ) :
    projDx c s 0 0 = 0 ∧ projDy c s 0 0 = 0 ∧
    posX c s 0 0 = 856 ∧ posY c s 0 0 = 107 := by
  refine ⟨?_, ?_, ?_, ?_⟩ <;>
    simp [projDx, projDy, posX, posY, sweetSpotX, sweetSpotY]

/-- C8: a star whose projected position at the current angle falls
outside the rectangular optical-field window
`x ∈ [-162, 2047+185], y ∈ [-154, 2047+174]` is dropped for that
angle: processing it leaves the whole engine state — in particular
that angle's cube plane — unchanged. -/
theorem outside_fov_no_contribution (cfg : EngineConfig) (kPA : ℕ)
    (c s : ℚ) (st : FieldStar) (es : EngineState)
    (h : ¬ inFOV (posX c s st.dRA st.dDEC) (posY c s st.dRA st.dDEC)) :
    starStep cfg kPA c s st es = es := by
  simp [starStep, h]

/-- Closed witness for `outside_fov_no_contribution`: at the angle
with `(c, s) = (0, 1)` a star offset 1000 arcsec east projects to
`y ≈ 15492`, far outside the field, and its step is the identity. -/
theorem outside_fov_no_contribution_witness :
    ¬ inFOV (posX 0 1 1000 0) (posY 0 1 1000 0) ∧
    starStep cfgA 3 0 1 ⟨1000, 0, 10, 5000⟩ initState = initState := by
  have h : ¬ inFOV (posX 0 1 1000 0) (posY 0 1 1000 0) := by
    norm_num [inFOV, posX, posY, projDx, projDy, nirissPixelScale,
      sweetSpotX, sweetSpotY]
  exact ⟨h, outside_fov_no_contribution cfgA 3 0 1 ⟨1000, 0, 10, 5000⟩
    initState h⟩

/-- C10: at every angle, a star whose pixel offset rounds to exactly
`(0, 0)` — the target, or a genuine field star landing on the
target's pixel — contributes nothing to that angle's field-star plane
`kPA+2`: the plane is unchanged and no accumulation event is
emitted (the `+=` branch requires `intx ≠ 0 ∨ inty ≠ 0`). -/
theorem zero_offset_no_accumulation (cfg : EngineConfig) (kPA : ℕ)
    (c s : ℚ) (st : FieldStar) (es : EngineState)
    (hx : pyRound (projDx c s st.dRA st.dDEC) = 0)
    (hy : pyRound (projDy c s st.dRA st.dDEC) = 0) :
    (starStep cfg kPA c s st es).cube (kPA + 2) = es.cube (kPA + 2) ∧
    (starStep cfg kPA c s st es).log.filter isAccum = es.log.filter isAccum := by
  unfold starStep
  by_cases hfov : inFOV (posX c s st.dRA st.dDEC) (posY c s st.dRA st.dDEC)
  · simp only [if_pos hfov, hx, hy]
    cases hcw : clipWindow cfg.modelPadX cfg.modelPadY cfg.dimXmod cfg.dimYmod
        cfg.dimX dimY 0 0 with
    | none => exact ⟨rfl, rfl⟩
    | some w =>
      by_cases hk : kPA = 0
      · subst hk
        constructor
        · simp
        · simp [List.filter_append, isAccum]
      · simp [hk]
  · simp [if_neg hfov]

/-- Closed witness for `zero_offset_no_accumulation`: the target-like
star (`dRA = dDEC = 0`) at sweep index 0 leaves plane 2 untouched. -/
theorem zero_offset_no_accumulation_witness :
    pyRound (projDx 0 1 0 0) = 0 ∧ pyRound (projDy 0 1 0 0) = 0 ∧
    ((starStep cfgA 0 0 1 ⟨0, 0, 10, 5000⟩ initState).cube 2 =
        initState.cube 2 ∧
      (starStep cfgA 0 0 1 ⟨0, 0, 10, 5000⟩ initState).log.filter isAccum =
        initState.log.filter isAccum) := by
  have hx : pyRound (projDx 0 1 0 0) = 0 := by
    norm_num [pyRound, projDx, nirissPixelScale]
  have hy : pyRound (projDy 0 1 0 0) = 0 := by
    norm_num [pyRound, projDy, nirissPixelScale]
  exact ⟨hx, hy, zero_offset_no_accumulation cfgA 0 0 1
    ⟨0, 0, 10, 5000⟩ initState hx hy⟩

/-- C7: window arithmetic is safe.  For every retained star, if the
overlap window is rejected (`mx0 > dimXmod` or `my0 > dimYmod`, or
`mx1 < 0` or `my1 < 0`, the two `continue`s of lines 170-173) the
star's step leaves the engine state unchanged; otherwise the clipped
source slice `[my0:my1, mx0:mx1]` lies within the model array
`dimYmod × dimXmod` and the destination slice
`[y0 : y0+(my1-my0), x0 : x0+(mx1-mx0)]` lies within the output frame
`dimY × dimX` — and both sides use the same width `mx1-mx0` and
height `my1-my0` by construction, so no indexing is out of range. -/
theorem clip_window_safe (cfg : EngineConfig) (kPA : ℕ) (c s : ℚ)
    (st : FieldStar) (es : EngineState)
    (hdx : 0 < cfg.dimX) (hxm : 0 ≤ cfg.dimXmod) (hym : 0 ≤ cfg.dimYmod) :
    (clipWindow cfg.modelPadX cfg.modelPadY cfg.dimXmod cfg.dimYmod cfg.dimX
        dimY (pyRound (projDx c s st.dRA st.dDEC))
        (pyRound (projDy c s st.dRA st.dDEC)) = none →
      starStep cfg kPA c s st es = es) ∧
    (∀ w, clipWindow cfg.modelPadX cfg.modelPadY cfg.dimXmod cfg.dimYmod
        cfg.dimX dimY (pyRound (projDx c s st.dRA st.dDEC))
        (pyRound (projDy c s st.dRA st.dDEC)) = some w →
      0 ≤ w.mx0 ∧ w.mx0 ≤ w.mx1 ∧ w.mx1 ≤ cfg.dimXmod ∧
      0 ≤ w.my0 ∧ w.my0 ≤ w.my1 ∧ w.my1 ≤ cfg.dimYmod ∧
      0 ≤ w.x0 ∧ w.x0 + (w.mx1 - w.mx0) ≤ cfg.dimX ∧
      0 ≤ w.y0 ∧ w.y0 + (w.my1 - w.my0) ≤ dimY) := by
  constructor
  · intro hnone
    unfold starStep
    by_cases hfov : inFOV (posX c s st.dRA st.dDEC) (posY c s st.dRA st.dDEC)
    · simp only [if_pos hfov, hnone]
    · simp [if_neg hfov]
  · intro w hw
    unfold clipWindow at hw
    have h2048 : (0 : ℤ) < dimY := by decide
    by_cases h1 : cfg.modelPadX - pyRound (projDx c s st.dRA st.dDEC) > cfg.dimXmod ∨
        cfg.modelPadY - pyRound (projDy c s st.dRA st.dDEC) > cfg.dimYmod
    · simp only [h1, if_true] at hw
      exact absurd hw (by simp)
    · simp only [h1, if_false] at hw
      by_cases h2 : cfg.modelPadX - pyRound (projDx c s st.dRA st.dDEC) + cfg.dimX < 0 ∨
          cfg.modelPadY - pyRound (projDy c s st.dRA st.dDEC) + dimY < 0
      · simp only [h2, if_true] at hw
        exact absurd hw (by simp)
      · simp only [h2, if_false, Option.some.injEq] at hw
        push_neg at h1 h2
        subst hw
        simp only
        constructor
        · split <;> omega
        constructor
        · split <;> split <;> omega
        constructor
        · split <;> omega
        constructor
        · split <;> omega
        constructor
        · split <;> split <;> omega
        constructor
        · split <;> omega
        constructor
        · split <;> omega
        constructor
        · split <;> split <;> split <;> omega
        constructor
        · split <;> omega
        · split <;> split <;> split <;> omega

/-- Closed witness for `clip_window_safe` at the witness
configuration and the target-like star. -/
theorem clip_window_safe_witness :
    0 < cfgA.dimX ∧ 0 ≤ cfgA.dimXmod ∧ 0 ≤ cfgA.dimYmod ∧
    ((clipWindow cfgA.modelPadX cfgA.modelPadY cfgA.dimXmod cfgA.dimYmod
        cfgA.dimX dimY (pyRound (projDx 0 1 (0:ℚ) 0))
        (pyRound (projDy 0 1 (0:ℚ) 0)) = none →
      starStep cfgA 0 0 1 ⟨0, 0, 10, 5000⟩ initState = initState) ∧
    (∀ w, clipWindow cfgA.modelPadX cfgA.modelPadY cfgA.dimXmod cfgA.dimYmod
        cfgA.dimX dimY (pyRound (projDx 0 1 (0:ℚ) 0))
        (pyRound (projDy 0 1 (0:ℚ) 0)) = some w →
      0 ≤ w.mx0 ∧ w.mx0 ≤ w.mx1 ∧ w.mx1 ≤ cfgA.dimXmod ∧
      0 ≤ w.my0 ∧ w.my0 ≤ w.my1 ∧ w.my1 ≤ cfgA.dimYmod ∧
      0 ≤ w.x0 ∧ w.x0 + (w.mx1 - w.mx0) ≤ cfgA.dimX ∧
      0 ≤ w.y0 ∧ w.y0 + (w.my1 - w.my0) ≤ dimY)) := by
  exact ⟨by decide, by decide, by decide,
    clip_window_safe cfgA 0 0 1 ⟨0, 0, 10, 5000⟩ initState
      (by decide) (by decide) (by decide)⟩

/-- The log of one star step is the old log extended by exactly that
star's events. -/
lemma starStep_log (cfg : EngineConfig) (kPA : ℕ) (c s : ℚ)
    (st : FieldStar) (es : EngineState) :
    (starStep cfg kPA c s st es).log = es.log ++ starEvents cfg kPA c s st := by
  simp only [starStep, starEvents]
  by_cases hfov : inFOV (posX c s st.dRA st.dDEC) (posY c s st.dRA st.dDEC)
  · simp only [if_pos hfov]
    cases hcw : clipWindow cfg.modelPadX cfg.modelPadY cfg.dimXmod cfg.dimYmod
        cfg.dimX dimY (pyRound (projDx c s st.dRA st.dDEC))
        (pyRound (projDy c s st.dRA st.dDEC)) with
    | none => simp
    | some w =>
      by_cases htr : pyRound (projDx c s st.dRA st.dDEC) = 0 ∧
          pyRound (projDy c s st.dRA st.dDEC) = 0 ∧ kPA = 0
      · have hacc : ¬(pyRound (projDx c s st.dRA st.dDEC) ≠ 0 ∨
            pyRound (projDy c s st.dRA st.dDEC) ≠ 0) := by
          push_neg
          exact ⟨htr.1, htr.2.1⟩
        simp [htr, hacc]
      · by_cases hacc : pyRound (projDx c s st.dRA st.dDEC) ≠ 0 ∨
            pyRound (projDy c s st.dRA st.dDEC) ≠ 0
        · simp [htr, hacc]
        · simp [htr, hacc]
  · simp [hfov]

/-- The log of one angle iteration extends the old log by the angle's
events. -/
lemma angleStep_log (cfg : EngineConfig) (kPA : ℕ) (c s : ℚ) :
    ∀ (stars : List FieldStar) (es : EngineState),
    (angleStep cfg kPA c s stars es).log = es.log ++ angleEvents cfg kPA c s stars := by
  intro stars
  induction stars with
  | nil => intro es; simp [angleStep, angleEvents]
  | cons st sts ih =>
    intro es
    have h1 : angleStep cfg kPA c s (st :: sts) es =
        angleStep cfg kPA c s sts (starStep cfg kPA c s st es) := rfl
    rw [h1, ih, starStep_log]
    simp [angleEvents]

/-- The log of a pair-list run extends the old log by the pairs'
events. -/
lemma runPairs_log (cfg : EngineConfig) (stars : List FieldStar) :
    ∀ (l : List (ℕ × ℚ × ℚ)) (es : EngineState),
    (runPairs cfg stars l es).log = es.log ++ pairEvents cfg stars l := by
  intro l
  induction l with
  | nil => intro es; simp [runPairs, pairEvents]
  | cons p ps ih =>
    intro es
    have h1 : runPairs cfg stars (p :: ps) es =
        runPairs cfg stars ps (angleStep cfg p.1 p.2.1 p.2.2 stars es) := rfl
    rw [h1, ih, angleStep_log]
    simp [pairEvents]

/-- The log of the whole sweep extends the old log by the sweep's
events. -/
lemma runSweep_log (cfg : EngineConfig) (angles : List (ℚ × ℚ))
    (stars : List FieldStar) (es : EngineState) :
    (runSweep cfg angles stars es).log = es.log ++ sweepEvents cfg angles stars :=
  runPairs_log cfg stars angles.enum es

/-- Any reference-plane write event a star emits has plane 0 or 1 and
sweep index 0. -/
lemma starEvents_refWrite_shape (cfg : EngineConfig) (kPA : ℕ) (c s : ℚ)
    (st : FieldStar) (p k : ℕ)
    (h : CubeEvent.refWrite p k ∈ starEvents cfg kPA c s st) :
    (p = 0 ∨ p = 1) ∧ k = 0 := by
  unfold starEvents at h
  by_cases hfov : inFOV (posX c s st.dRA st.dDEC) (posY c s st.dRA st.dDEC)
  · rw [if_pos hfov] at h
    cases hcw : clipWindow cfg.modelPadX cfg.modelPadY cfg.dimXmod cfg.dimYmod
        cfg.dimX dimY (pyRound (projDx c s st.dRA st.dDEC))
        (pyRound (projDy c s st.dRA st.dDEC)) with
    | none => rw [hcw] at h; simp at h
    | some w =>
      rw [hcw] at h
      rw [List.mem_append] at h
      rcases h with h | h
      · by_cases htr : pyRound (projDx c s st.dRA st.dDEC) = 0 ∧
            pyRound (projDy c s st.dRA st.dDEC) = 0 ∧ kPA = 0
        · rw [if_pos htr] at h
          simp only [List.mem_cons, List.not_mem_nil, or_false] at h
          rcases h with h | h
          · injection h with h1 h2
            exact ⟨Or.inl h1, by rw [h2]; exact htr.2.2⟩
          · injection h with h1 h2
            exact ⟨Or.inr h1, by rw [h2]; exact htr.2.2⟩
        · rw [if_neg htr] at h; simp at h
      · by_cases hacc : pyRound (projDx c s st.dRA st.dDEC) ≠ 0 ∨
            pyRound (projDy c s st.dRA st.dDEC) ≠ 0
        · rw [if_pos hacc] at h
          simp only [List.mem_cons, List.not_mem_nil, or_false] at h
          exact absurd h (by simp)
        · rw [if_neg hacc] at h; simp at h
  · rw [if_neg hfov] at h; simp at h

/-- Any accumulation event a star emits at sweep index `kPA` targets
plane `kPA + 2`. -/
lemma starEvents_accum_shape (cfg : EngineConfig) (kPA : ℕ) (c s : ℚ)
    (st : FieldStar) (p k : ℕ)
    (h : CubeEvent.accum p k ∈ starEvents cfg kPA c s st) :
    p = k + 2 := by
  unfold starEvents at h
  by_cases hfov : inFOV (posX c s st.dRA st.dDEC) (posY c s st.dRA st.dDEC)
  · rw [if_pos hfov] at h
    cases hcw : clipWindow cfg.modelPadX cfg.modelPadY cfg.dimXmod cfg.dimYmod
        cfg.dimX dimY (pyRound (projDx c s st.dRA st.dDEC))
        (pyRound (projDy c s st.dRA st.dDEC)) with
    | none => rw [hcw] at h; simp at h
    | some w =>
      rw [hcw] at h
      rw [List.mem_append] at h
      rcases h with h | h
      · by_cases htr : pyRound (projDx c s st.dRA st.dDEC) = 0 ∧
            pyRound (projDy c s st.dRA st.dDEC) = 0 ∧ kPA = 0
        · rw [if_pos htr] at h; simp at h
        · rw [if_neg htr] at h; simp at h
      · by_cases hacc : pyRound (projDx c s st.dRA st.dDEC) ≠ 0 ∨
            pyRound (projDy c s st.dRA st.dDEC) ≠ 0
        · rw [if_pos hacc] at h
          simp only [List.mem_cons, List.not_mem_nil, or_false] at h
          injection h with h1 h2
          rw [h1, h2]
        · rw [if_neg hacc] at h; simp at h
  · rw [if_neg hfov] at h; simp at h

/-- Event-shape lemmas lifted to the whole sweep. -/
lemma sweepEvents_refWrite_shape (cfg : EngineConfig)
    (angles : List (ℚ × ℚ)) (stars : List FieldStar) (p k : ℕ)
    (h : CubeEvent.refWrite p k ∈ sweepEvents cfg angles stars) :
    (p = 0 ∨ p = 1) ∧ k = 0 := by
  unfold sweepEvents pairEvents at h
  rw [List.mem_flatten] at h
  obtain ⟨l, hl, hmem⟩ := h
  rw [List.mem_map] at hl
  obtain ⟨pr, _, rfl⟩ := hl
  unfold angleEvents at hmem
  rw [List.mem_flatten] at hmem
  obtain ⟨l2, hl2, hmem2⟩ := hmem
  rw [List.mem_map] at hl2
  obtain ⟨st, _, rfl⟩ := hl2
  exact starEvents_refWrite_shape cfg pr.1 pr.2.1 pr.2.2 st p k hmem2

/-- Any accumulation event of the sweep targets plane `kPA + 2` of
the angle `kPA` that emitted it. -/
lemma sweepEvents_accum_shape (cfg : EngineConfig)
    (angles : List (ℚ × ℚ)) (stars : List FieldStar) (p k : ℕ)
    (h : CubeEvent.accum p k ∈ sweepEvents cfg angles stars) :
    p = k + 2 := by
  unfold sweepEvents pairEvents at h
  rw [List.mem_flatten] at h
  obtain ⟨l, hl, hmem⟩ := h
  rw [List.mem_map] at hl
  obtain ⟨pr, _, rfl⟩ := hl
  unfold angleEvents at hmem
  rw [List.mem_flatten] at hmem
  obtain ⟨l2, hl2, hmem2⟩ := hmem
  rw [List.mem_map] at hl2
  obtain ⟨st, _, rfl⟩ := hl2
  exact starEvents_accum_shape cfg pr.1 pr.2.1 pr.2.2 st p k hmem2

/-- How many writes of reference plane `j ∈ {0, 1}` one star emits:
one when `kPA = 0` and the star takes the write branch, none
otherwise. -/
lemma starEvents_count_ref (cfg : EngineConfig) (kPA : ℕ) (c s : ℚ)
    (st : FieldStar) (j : ℕ) (hj : j = 0 ∨ j = 1) :
    (starEvents cfg kPA c s st).count (CubeEvent.refWrite j 0) =
      if kPA = 0 ∧ triggersRef cfg c s st then 1 else 0 := by
  unfold starEvents triggersRef
  by_cases hfov : inFOV (posX c s st.dRA st.dDEC) (posY c s st.dRA st.dDEC)
  · rw [if_pos hfov]
    cases hcw : clipWindow cfg.modelPadX cfg.modelPadY cfg.dimXmod cfg.dimYmod
        cfg.dimX dimY (pyRound (projDx c s st.dRA st.dDEC))
        (pyRound (projDy c s st.dRA st.dDEC)) with
    | none => simp [hcw]
    | some w =>
      by_cases hx : pyRound (projDx c s st.dRA st.dDEC) = 0
      · by_cases hy : pyRound (projDy c s st.dRA st.dDEC) = 0
        · by_cases hk : kPA = 0
          · have htr : pyRound (projDx c s st.dRA st.dDEC) = 0 ∧
                pyRound (projDy c s st.dRA st.dDEC) = 0 ∧ kPA = 0 := ⟨hx, hy, hk⟩
            have hacc : ¬(pyRound (projDx c s st.dRA st.dDEC) ≠ 0 ∨
                pyRound (projDy c s st.dRA st.dDEC) ≠ 0) := by
              push_neg
              exact ⟨hx, hy⟩
            rw [if_pos htr, if_neg hacc]
            subst hk
            rcases hj with rfl | rfl <;>
              simp [hfov, hcw, hx, hy, List.count_cons]
          · have htr : ¬(pyRound (projDx c s st.dRA st.dDEC) = 0 ∧
                pyRound (projDy c s st.dRA st.dDEC) = 0 ∧ kPA = 0) := by
              intro hc
              exact hk hc.2.2
            have hacc : ¬(pyRound (projDx c s st.dRA st.dDEC) ≠ 0 ∨
                pyRound (projDy c s st.dRA st.dDEC) ≠ 0) := by
              push_neg
              exact ⟨hx, hy⟩
            rw [if_neg htr, if_neg hacc]
            simp [hk]
        · have htr : ¬(pyRound (projDx c s st.dRA st.dDEC) = 0 ∧
              pyRound (projDy c s st.dRA st.dDEC) = 0 ∧ kPA = 0) := by
            intro hc
            exact hy hc.2.1
          rw [if_neg htr, if_pos (Or.inr hy)]
          simp [hy, List.count_cons]
      · have htr : ¬(pyRound (projDx c s st.dRA st.dDEC) = 0 ∧
            pyRound (projDy c s st.dRA st.dDEC) = 0 ∧ kPA = 0) := by
          intro hc
          exact hx hc.1
        rw [if_neg htr, if_pos (Or.inl hx)]
        simp [hx, List.count_cons]
  · rw [if_neg hfov]
    simp [hfov]

/-- How many writes of reference plane `j ∈ {0, 1}` one whole angle
iteration emits. -/
lemma angleEvents_count_ref (cfg : EngineConfig) (kPA : ℕ) (c s : ℚ)
    (stars : List FieldStar) (j : ℕ) (hj : j = 0 ∨ j = 1) :
    (angleEvents cfg kPA c s stars).count (CubeEvent.refWrite j 0) =
      if kPA = 0 then stars.countP (triggersRef cfg c s) else 0 := by
  induction stars with
  | nil => simp [angleEvents]
  | cons st sts ih =>
    have h1 : angleEvents cfg kPA c s (st :: sts) =
        starEvents cfg kPA c s st ++ angleEvents cfg kPA c s sts := by
      simp [angleEvents]
    rw [h1, List.count_append, starEvents_count_ref cfg kPA c s st j hj, ih,
      List.countP_cons]
    by_cases hk : kPA = 0
    · by_cases ht : triggersRef cfg c s st = true
      · simp only [hk, ht]
        simp only [true_and, and_true, if_true]
        omega
      · simp only [hk, ht]
        simp only [true_and, and_true, if_true, Bool.false_eq_true, if_false]
        omega
    · simp [hk]

/-- Angles of nonzero sweep index emit no reference-plane writes. -/
lemma pairEvents_count_ref_zero (cfg : EngineConfig)
    (stars : List FieldStar) (j : ℕ) (hj : j = 0 ∨ j = 1) :
    ∀ (l : List (ℕ × ℚ × ℚ)), (∀ p ∈ l, p.1 ≠ 0) →
    (pairEvents cfg stars l).count (CubeEvent.refWrite j 0) = 0 := by
  intro l
  induction l with
  | nil => intro _; simp [pairEvents]
  | cons p ps ih =>
    intro hl
    have h1 : pairEvents cfg stars (p :: ps) =
        angleEvents cfg p.1 p.2.1 p.2.2 stars ++ pairEvents cfg stars ps := by
      simp [pairEvents]
    rw [h1, List.count_append,
      angleEvents_count_ref cfg p.1 p.2.1 p.2.2 stars j hj,
      ih (fun q hq => hl q (List.mem_cons_of_mem p hq))]
    simp [hl p (List.mem_cons_self p ps)]

/-- The reference-plane write count over a whole sweep whose angle
list starts with `a`: one write of plane `j` per star taking the
write branch at the first angle, none elsewhere. -/
lemma runSweep_count_ref (cfg : EngineConfig) (stars : List FieldStar)
    (es : EngineState) (a : ℚ × ℚ) (rest : List (ℚ × ℚ)) (j : ℕ)
    (hj : j = 0 ∨ j = 1) :
    ((runSweep cfg (a :: rest) stars es).log).count (CubeEvent.refWrite j 0) =
      es.log.count (CubeEvent.refWrite j 0) +
        stars.countP (triggersRef cfg a.1 a.2) := by
  rw [runSweep_log, List.count_append]
  have hsplit : sweepEvents cfg (a :: rest) stars =
      angleEvents cfg 0 a.1 a.2 stars ++ pairEvents cfg stars (rest.enumFrom 1) := by
    unfold sweepEvents pairEvents
    rw [List.enum_cons]
    simp
  rw [hsplit, List.count_append,
    angleEvents_count_ref cfg 0 a.1 a.2 stars j hj,
    pairEvents_count_ref_zero cfg stars j hj (rest.enumFrom 1) ?_]
  · simp
  · intro p hp
    have h := (List.mem_enumFrom (x := p.2) (i := p.1) (j := 1) hp).1
    omega

/-- A star step at a nonzero sweep index leaves reference planes 0
and 1 untouched. -/
lemma starStep_cube01 (cfg : EngineConfig) (kPA : ℕ) (c s : ℚ)
    (st : FieldStar) (es : EngineState) (hk : kPA ≠ 0) :
    (starStep cfg kPA c s st es).cube 0 = es.cube 0 ∧
    (starStep cfg kPA c s st es).cube 1 = es.cube 1 := by
  unfold starStep
  by_cases hfov : inFOV (posX c s st.dRA st.dDEC) (posY c s st.dRA st.dDEC)
  · simp only [if_pos hfov]
    cases hcw : clipWindow cfg.modelPadX cfg.modelPadY cfg.dimXmod cfg.dimYmod
        cfg.dimX dimY (pyRound (projDx c s st.dRA st.dDEC))
        (pyRound (projDy c s st.dRA st.dDEC)) with
    | none => exact ⟨rfl, rfl⟩
    | some w =>
      have htr : ¬(pyRound (projDx c s st.dRA st.dDEC) = 0 ∧
          pyRound (projDy c s st.dRA st.dDEC) = 0 ∧ kPA = 0) := by
        intro hc
        exact hk hc.2.2
      have h2 : ¬((0 : ℕ) = kPA + 2) := by omega
      have h3 : ¬((1 : ℕ) = kPA + 2) := by omega
      by_cases hacc : pyRound (projDx c s st.dRA st.dDEC) ≠ 0 ∨
          pyRound (projDy c s st.dRA st.dDEC) ≠ 0
      · constructor <;> simp [htr, hacc, h2, h3]
      · constructor <;> simp [htr, hacc]
  · simp [hfov]

/-- A whole angle iteration at a nonzero sweep index leaves
reference planes 0 and 1 untouched. -/
lemma angleStep_cube01 (cfg : EngineConfig) (kPA : ℕ) (c s : ℚ)
    (hk : kPA ≠ 0) :
    ∀ (stars : List FieldStar) (es : EngineState),
    (angleStep cfg kPA c s stars es).cube 0 = es.cube 0 ∧
    (angleStep cfg kPA c s stars es).cube 1 = es.cube 1 := by
  intro stars
  induction stars with
  | nil => intro es; exact ⟨rfl, rfl⟩
  | cons st sts ih =>
    intro es
    have h1 : angleStep cfg kPA c s (st :: sts) es =
        angleStep cfg kPA c s sts (starStep cfg kPA c s st es) := rfl
    rw [h1]
    obtain ⟨hA, hB⟩ := ih (starStep cfg kPA c s st es)
    obtain ⟨hC, hD⟩ := starStep_cube01 cfg kPA c s st es hk
    exact ⟨hA.trans hC, hB.trans hD⟩

/-- A pair-list run over nonzero sweep indices leaves reference
planes 0 and 1 untouched. -/
lemma runPairs_cube01 (cfg : EngineConfig) (stars : List FieldStar) :
    ∀ (l : List (ℕ × ℚ × ℚ)), (∀ p ∈ l, p.1 ≠ 0) →
    ∀ (es : EngineState),
    (runPairs cfg stars l es).cube 0 = es.cube 0 ∧
    (runPairs cfg stars l es).cube 1 = es.cube 1 := by
  intro l
  induction l with
  | nil => intro _ es; exact ⟨rfl, rfl⟩
  | cons p ps ih =>
    intro hl es
    have h1 : runPairs cfg stars (p :: ps) es =
        runPairs cfg stars ps (angleStep cfg p.1 p.2.1 p.2.2 stars es) := rfl
    rw [h1]
    obtain ⟨hA, hB⟩ := ih (fun q hq => hl q (List.mem_cons_of_mem p hq))
      (angleStep cfg p.1 p.2.1 p.2.2 stars es)
    obtain ⟨hC, hD⟩ := angleStep_cube01 cfg p.1 p.2.1 p.2.2
      (hl p (List.mem_cons_self p ps)) stars es
    exact ⟨hA.trans hC, hB.trans hD⟩

/-- Projection of a zero offset is zero (shared evaluation fact). -/
lemma projDx_zero (c s : ℚ) : projDx c s 0 0 = 0 := by
  simp [projDx]

/-- Projection of a zero offset is zero (shared evaluation fact). -/
lemma projDy_zero (c s : ℚ) : projDy c s 0 0 = 0 := by
  simp [projDy]

/-- `round(0.0) == 0` (shared evaluation fact). -/
lemma pyRound_zero : pyRound 0 = 0 := by
  norm_num [pyRound]

/-- Under the witness configuration, a star at zero angular offset
takes the reference-plane write branch at every angle. -/
lemma triggersRef_cfgA (c s jm T : ℚ) :
    triggersRef cfgA c s ⟨0, 0, jm, T⟩ = true := by
  have hx : posX c s (0 : ℚ) 0 = 856 := by
    rw [posX, projDx_zero]
    norm_num [sweetSpotX]
  have hy : posY c s (0 : ℚ) 0 = 107 := by
    rw [posY, projDy_zero]
    norm_num [sweetSpotY]
  have hfov : inFOV (posX c s (0 : ℚ) 0) (posY c s (0 : ℚ) 0) := by
    rw [hx, hy]
    norm_num [inFOV]
  unfold triggersRef
  simp only [projDx_zero, projDy_zero, pyRound_zero]
  simp [hfov, cfgA, clipWindow, dimY]

/-- C1 (amended): across any run of the sweep, (i) the run's log is
the prior log extended by the sweep's events; (ii) every
reference-plane write event targets plane 0 or 1 and happens at the
first angle, `kPA = 0`; (iii) every angle-plane event is an additive
accumulation into plane `kPA + 2` of the angle that emitted it, so
angle planes are never overwritten and planes 0/1 are never touched
by accumulation; (iv) when the sweep starts with angle `a`, planes 0
and 1 are each written exactly once per star taking the write branch
at `a` — exactly once in total precisely when exactly one star's
rounded offset is `(0, 0)` there — and (v) after the whole sweep
planes 0 and 1 hold exactly what the first angle left in them. -/
theorem ref_planes_written_only_at_first_angle (cfg : EngineConfig)
    (angles : List (ℚ × ℚ)) (stars : List FieldStar) (es : EngineState) :
    ((runSweep cfg angles stars es).log = es.log ++ sweepEvents cfg angles stars) ∧
    (∀ p k, CubeEvent.refWrite p k ∈ sweepEvents cfg angles stars →
      (p = 0 ∨ p = 1) ∧ k = 0) ∧
    (∀ p k, CubeEvent.accum p k ∈ sweepEvents cfg angles stars → p = k + 2) ∧
    (∀ a rest, angles = a :: rest →
      ((runSweep cfg angles stars es).log.count (CubeEvent.refWrite 0 0) =
          es.log.count (CubeEvent.refWrite 0 0) +
            stars.countP (triggersRef cfg a.1 a.2) ∧
        (runSweep cfg angles stars es).log.count (CubeEvent.refWrite 1 0) =
          es.log.count (CubeEvent.refWrite 1 0) +
            stars.countP (triggersRef cfg a.1 a.2)) ∧
      ((runSweep cfg angles stars es).cube 0 =
          (angleStep cfg 0 a.1 a.2 stars es).cube 0 ∧
        (runSweep cfg angles stars es).cube 1 =
          (angleStep cfg 0 a.1 a.2 stars es).cube 1)) := by
  refine ⟨runSweep_log cfg angles stars es,
    fun p k h => sweepEvents_refWrite_shape cfg angles stars p k h,
    fun p k h => sweepEvents_accum_shape cfg angles stars p k h,
    fun a rest hangles => ?_⟩
  subst hangles
  refine ⟨⟨runSweep_count_ref cfg stars es a rest 0 (Or.inl rfl),
    runSweep_count_ref cfg stars es a rest 1 (Or.inr rfl)⟩, ?_⟩
  have h1 : runSweep cfg (a :: rest) stars es =
      runPairs cfg stars (rest.enumFrom 1) (angleStep cfg 0 a.1 a.2 stars es) := by
    unfold runSweep
    rw [List.enum_cons]
    rfl
  rw [h1]
  exact runPairs_cube01 cfg stars (rest.enumFrom 1)
    (fun p hp => by
      have h := (List.mem_enumFrom (x := p.2) (i := p.1) (j := 1) hp).1
      omega)
    (angleStep cfg 0 a.1 a.2 stars es)

/-- C1 counterexample: in a run of the default 360-angle sweep over a
field with two stars whose rounded pixel offset is `(0, 0)` at the
first angle, reference plane 0 is written twice, not exactly once —
the write branch is keyed on the rounded offset, not on being the
target. -/
theorem ref_planes_written_twice_cex :
    ((runSweep cfgA cexAngles cexStars initState).log.count
      (CubeEvent.refWrite 0 0)) = 2 := by
  have hsplit : cexAngles =
      ((0 : ℚ), (1 : ℚ)) :: List.replicate 359 ((0 : ℚ), (1 : ℚ)) := rfl
  rw [hsplit, runSweep_count_ref cfgA cexStars initState ((0 : ℚ), (1 : ℚ))
    (List.replicate 359 ((0 : ℚ), (1 : ℚ))) 0 (Or.inl rfl)]
  have h1 : triggersRef cfgA 0 1 ⟨0, 0, 10, 5000⟩ = true := triggersRef_cfgA 0 1 10 5000
  have h2 : triggersRef cfgA 0 1 ⟨0, 0, 12, 5000⟩ = true := triggersRef_cfgA 0 1 12 5000
  simp [initState, cexStars, List.countP_cons, h1, h2]

/-- Characterization of the `argminAux` scan: either no element of
the remaining list beats the running best, or the scan lands on the
first overall minimum of the list, which beats the running best. -/
lemma argminAux_cases (l : List ℚ) : ∀ (i best : ℕ) (bv : ℚ),
    (argminAux i best bv l = best ∧ ∀ j, j < l.length → bv ≤ l.getD j 0) ∨
    (∃ k, k < l.length ∧ argminAux i best bv l = i + k ∧ l.getD k 0 < bv ∧
      (∀ j, j < l.length → l.getD k 0 ≤ l.getD j 0) ∧
      (∀ j, j < k → l.getD k 0 < l.getD j 0)) := by
  induction l with
  | nil =>
    intro i best bv
    left
    exact ⟨rfl, fun j hj => by simp at hj⟩
  | cons v vs ih =>
    intro i best bv
    by_cases hv : v < bv
    · right
      rcases ih (i + 1) i v with ⟨heq, hall⟩ | ⟨k, hk, heq, hlt, hmin, hfirst⟩
      · refine ⟨0, by simp, ?_, by simpa using hv, ?_, ?_⟩
        · show argminAux i best bv (v :: vs) = i + 0
          rw [argminAux, if_pos hv, heq]
          omega
        · intro j hj
          cases j with
          | zero => simp
          | succ m =>
            simp only [List.getD_cons_zero, List.getD_cons_succ]
            exact hall m (by simpa using hj)
        · intro j hj
          omega
      · refine ⟨k + 1, by simpa using hk, ?_, ?_, ?_, ?_⟩
        · show argminAux i best bv (v :: vs) = i + (k + 1)
          rw [argminAux, if_pos hv, heq]
          omega
        · simp only [List.getD_cons_succ]
          exact lt_trans hlt hv
        · intro j hj
          cases j with
          | zero =>
            simp only [List.getD_cons_succ, List.getD_cons_zero]
            exact le_of_lt hlt
          | succ m =>
            simp only [List.getD_cons_succ]
            exact hmin m (by simpa using hj)
        · intro j hj
          cases j with
          | zero =>
            simp only [List.getD_cons_succ, List.getD_cons_zero]
            exact hlt
          | succ m =>
            simp only [List.getD_cons_succ]
            exact hfirst m (by omega)
    · rcases ih (i + 1) best bv with ⟨heq, hall⟩ | ⟨k, hk, heq, hlt, hmin, hfirst⟩
      · left
        refine ⟨?_, ?_⟩
        · rw [argminAux, if_neg hv, heq]
        · intro j hj
          cases j with
          | zero =>
            simp only [List.getD_cons_zero]
            exact le_of_not_lt hv
          | succ m =>
            simp only [List.getD_cons_succ]
            exact hall m (by simpa using hj)
      · right
        refine ⟨k + 1, by simpa using hk, ?_, ?_, ?_, ?_⟩
        · rw [argminAux, if_neg hv, heq]
          omega
        · simp only [List.getD_cons_succ]
          exact hlt
        · intro j hj
          cases j with
          | zero =>
            simp only [List.getD_cons_succ, List.getD_cons_zero]
            exact le_of_lt (lt_of_lt_of_le hlt (le_of_not_lt hv))
          | succ m =>
            simp only [List.getD_cons_succ]
            exact hmin m (by simpa using hj)
        · intro j hj
          cases j with
          | zero =>
            simp only [List.getD_cons_succ, List.getD_cons_zero]
            exact lt_of_lt_of_le hlt (le_of_not_lt hv)
          | succ m =>
            simp only [List.getD_cons_succ]
            exact hfirst m (by omega)

/-- `argminIdx` on a nonempty list is a first minimum: it is in
range, its value is a minimum, and every earlier value is strictly
larger. -/
lemma argminIdx_spec (l : List ℚ) (h : l ≠ []) :
    argminIdx l < l.length ∧
    (∀ j, j < l.length → l.getD (argminIdx l) 0 ≤ l.getD j 0) ∧
    (∀ j, j < argminIdx l → l.getD (argminIdx l) 0 < l.getD j 0) := by
  cases l with
  | nil => exact absurd rfl h
  | cons v vs =>
    have hidx : argminIdx (v :: vs) = argminAux 1 0 v vs := rfl
    rcases argminAux_cases vs 1 0 v with ⟨heq, hall⟩ | ⟨k, hk, heq, hlt, hmin, hfirst⟩
    · rw [hidx, heq]
      refine ⟨by simp, ?_, ?_⟩
      · intro j hj
        cases j with
        | zero => exact le_refl _
        | succ m =>
          simp only [List.getD_cons_zero, List.getD_cons_succ]
          exact hall m (by simpa using hj)
      · intro j hj
        omega
    · rw [hidx, heq]
      have hgd : (v :: vs).getD (1 + k) 0 = vs.getD k 0 := by
        have : 1 + k = k + 1 := by omega
        rw [this, List.getD_cons_succ]
      refine ⟨by simp; omega, ?_, ?_⟩
      · intro j hj
        rw [hgd]
        cases j with
        | zero =>
          simp only [List.getD_cons_zero]
          exact le_of_lt hlt
        | succ m =>
          simp only [List.getD_cons_succ]
          exact hmin m (by simpa using hj)
      · intro j hj
        rw [hgd]
        cases j with
        | zero =>
          simp only [List.getD_cons_zero]
          exact hlt
        | succ m =>
          simp only [List.getD_cons_succ]
          exact hfirst m (by omega)

/-- C6: for every star's color indices `(J-H, H-K)` and nonempty
color table, the assigned temperature is the `teffMod` entry at the
index minimizing `(J_Hobs - jhMod)^2 + (H_Kobs - hkMod)^2`, and on
ties the first minimizing index in storage order is chosen: the
returned index has minimal separation and every earlier index has
strictly larger separation. -/
theorem nearest_color_assignment (table : List ColorEntry) (jh hk : ℚ)
    (h : table ≠ []) :
    ∃ i, i < table.length ∧
      assignTemp table jh hk = some ((table.getD i ⟨0, 0, 0⟩).teff) ∧
      (∀ j, j < table.length →
        colorSeparation jh hk (table.getD i ⟨0, 0, 0⟩) ≤
          colorSeparation jh hk (table.getD j ⟨0, 0, 0⟩)) ∧
      (∀ j, j < i →
        colorSeparation jh hk (table.getD i ⟨0, 0, 0⟩) <
          colorSeparation jh hk (table.getD j ⟨0, 0, 0⟩)) := by
  have hmapne : table.map (colorSeparation jh hk) ≠ [] := by
    simpa using h
  obtain ⟨hlen, hmin, hfirst⟩ := argminIdx_spec (table.map (colorSeparation jh hk)) hmapne
  rw [List.length_map] at hlen
  have hgd : ∀ j, j < table.length →
      (table.map (colorSeparation jh hk)).getD j 0 =
        colorSeparation jh hk (table.getD j ⟨0, 0, 0⟩) := by
    intro j hj
    rw [List.getD_eq_getElem _ _ (by simpa using hj),
      List.getD_eq_getElem _ _ hj, List.getElem_map]
  refine ⟨argminIdx (table.map (colorSeparation jh hk)), hlen, ?_, ?_, ?_⟩
  · obtain ⟨e, es, htab⟩ : ∃ e es, table = e :: es := by
      cases table with
      | nil => exact absurd rfl h
      | cons e es => exact ⟨e, es, rfl⟩
    subst htab
    show (((e :: es))[argminIdx ((e :: es).map (colorSeparation jh hk))]?).map
        ColorEntry.teff = _
    rw [List.getElem?_eq_getElem hlen, List.getD_eq_getElem _ _ hlen]
    rfl
  · intro j hj
    rw [← hgd _ hlen, ← hgd _ hj]
    exact hmin j (by simpa using hj)
  · intro j hj
    rw [← hgd _ hlen, ← hgd _ (lt_trans hj hlen)]
    exact hfirst j hj

/-- Closed witness for `nearest_color_assignment` on the tie table:
entries 1 and 2 both sit at separation 0 from the probe `(1, 0)` and
the first of them is chosen. -/
theorem nearest_color_assignment_witness :
    tableW ≠ [] ∧
    (∃ i, i < tableW.length ∧
      assignTemp tableW 1 0 = some ((tableW.getD i ⟨0, 0, 0⟩).teff) ∧
      (∀ j, j < tableW.length →
        colorSeparation 1 0 (tableW.getD i ⟨0, 0, 0⟩) ≤
          colorSeparation 1 0 (tableW.getD j ⟨0, 0, 0⟩)) ∧
      (∀ j, j < i →
        colorSeparation 1 0 (tableW.getD i ⟨0, 0, 0⟩) <
          colorSeparation 1 0 (tableW.getD j ⟨0, 0, 0⟩))) :=
  ⟨List.cons_ne_nil _ _,
    nearest_color_assignment tableW 1 0 (List.cons_ne_nil _ _)⟩

/-- C9 (evidence): injecting the companion `binComp0` into the
one-star field `field0` (J=10, H=9, K=8) appends exactly one star
whose J/H/K equal the three supplied magnitudes — but the
pre-existing star's H magnitude is replaced by its K magnitude
(line 43 appends to `Kmag` instead of `Hmag`), so its recomputed
color `J-H` is `10 - 8 = 2` instead of `10 - 9 = 1`. -/
theorem companion_injection_rewrites_H_from_K :
    (appendCompanion field0 0 1 binComp0).allRA.length =
      field0.allRA.length + 1 ∧
    (appendCompanion field0 0 1 binComp0).Jmag = [10, 5] ∧
    (appendCompanion field0 0 1 binComp0).Hmag = [8, 5] ∧
    (appendCompanion field0 0 1 binComp0).Kmag = [8, 5] ∧
    jhObs (appendCompanion field0 0 1 binComp0) = [2, 0] ∧
    field0.Jmag.getD 0 0 - field0.Hmag.getD 0 0 = 1 ∧ (2 : ℚ) ≠ 1 := by
  refine ⟨?_, ?_, ?_, ?_, ?_, ?_, ?_⟩ <;>
    norm_num [appendCompanion, field0, binComp0, jhObs]

end SossFieldSim

namespace ExoCTKCore

/-- C3: `get` fails whenever any of the three parameters lies outside
that axis's recorded min/max range, and it does so before any model
data is loaded: the result is the out-of-range error for every
`loader`, so no backing file is consulted and no compositing can
follow.  (In the source the failure is a printed diagnostic plus a
`None` return at lines 495-497.) -/
theorem get_out_of_range_fails (g : ModelGrid) (loader : GridRow → RawModel)
    (Teff logg FeH : ℚ)
    (h : ¬(g.Teff_rng.1 ≤ Teff ∧ Teff ≤ g.Teff_rng.2 ∧
      g.logg_rng.1 ≤ logg ∧ logg ≤ g.logg_rng.2 ∧
      g.FeH_rng.1 ≤ FeH ∧ FeH ≤ g.FeH_rng.2)) :
    g.get loader Teff logg FeH = Except.error GetError.outOfRange := by
  simp [ModelGrid.get, h]

/-- Closed witness for `get_out_of_range_fails`: `Teff = 9999` is
above the grid's 3500 K maximum. -/
theorem get_out_of_range_fails_witness :
    ¬(g0.Teff_rng.1 ≤ (9999 : ℚ) ∧ (9999 : ℚ) ≤ g0.Teff_rng.2 ∧
      g0.logg_rng.1 ≤ (4 : ℚ) ∧ (4 : ℚ) ≤ g0.logg_rng.2 ∧
      g0.FeH_rng.1 ≤ (0 : ℚ) ∧ (0 : ℚ) ≤ g0.FeH_rng.2) ∧
    g0.get loader0 9999 4 0 = Except.error GetError.outOfRange := by
  have h : ¬(g0.Teff_rng.1 ≤ (9999 : ℚ) ∧ (9999 : ℚ) ≤ g0.Teff_rng.2 ∧
      g0.logg_rng.1 ≤ (4 : ℚ) ∧ (4 : ℚ) ≤ g0.logg_rng.2 ∧
      g0.FeH_rng.1 ≤ (0 : ℚ) ∧ (0 : ℚ) ≤ g0.FeH_rng.2) := by
    norm_num [g0]
  exact ⟨h, get_out_of_range_fails g0 loader0 9999 4 0 h⟩

/-- C4 (evidence): at the stored grid point `(3000, 4, 0)` of `g0`,
`get` returns the node's trimmed data, but `grid_interp` at the very
same point yields no data at all — its body dereferences the local
`new_flux` before assignment (core.py line 542), so the round-trip
"interpolation reduces to exact retrieval at a grid node" cannot
hold on this code. -/
theorem grid_node_roundtrip_fails :
    g0.get loader0 3000 4 0 =
      Except.ok ⟨3000, 4, 0, [1, 2], [[1, 2]], [1]⟩ ∧
    g0.grid_interp 3000 4 0 = Except.error GetError.unboundLocalNewFlux := by
  constructor
  · norm_num [ModelGrid.get, g0, loader0, rowMatches, trimRow, List.find?,
      List.filterMap_cons, List.filterMap_nil]
  · rfl

/-- C2 counterexample: restricting `g0` to `Teff ∈ [5000, 6000]`
leaves zero grid points; the table is restored, yet the grid's
wavelength range has still been overwritten with the new `wave_rng`
argument — the prior state is not entirely unchanged. -/
theorem customize_empty_changes_wave_rng_cex :
    g0.data.filter (rowInRanges (5000, 6000) (0, 6) (-3, 3)) = [] ∧
    (g0.customize (5000, 6000) (0, 6) (-3, 3) (1, 2) 0).data = g0.data ∧
    (g0.customize (5000, 6000) (0, 6) (-3, 3) (1, 2) 0).wave_rng ≠ g0.wave_rng := by
  refine ⟨?_, ?_, ?_⟩ <;>
    norm_num [ModelGrid.customize, g0, rowInRanges, List.filter, Prod.ext_iff]

/-- C2 (amended): a `customize` call whose ranges leave zero grid
points keeps the data table and the recomputed parameter ranges and
value lists exactly as before (given the invariant that they were
derived from the table), and raises no error — but it still
overwrites `wave_rng` with the new argument and `n_bins` with any
nonzero argument, because those two are assigned before the
empty-result check and never restored (lines 642-643). -/
theorem customize_empty_keeps_table (g : ModelGrid)
    (tr lr fr wr : ℚ × ℚ) (nb : ℕ)
    (hemp : g.data.filter (rowInRanges tr lr fr) = [])
    (hTr : g.Teff_rng =
      (listMin (g.data.map GridRow.Teff), listMax (g.data.map GridRow.Teff)))
    (hLr : g.logg_rng =
      (listMin (g.data.map GridRow.logg), listMax (g.data.map GridRow.logg)))
    (hFr : g.FeH_rng =
      (listMin (g.data.map GridRow.FeH), listMax (g.data.map GridRow.FeH)))
    (hTv : g.Teff_vals = uniqueSorted (g.data.map GridRow.Teff))
    (hLv : g.logg_vals = uniqueSorted (g.data.map GridRow.logg))
    (hFv : g.FeH_vals = uniqueSorted (g.data.map GridRow.FeH)) :
    (g.customize tr lr fr wr nb).data = g.data ∧
    (g.customize tr lr fr wr nb).Teff_rng = g.Teff_rng ∧
    (g.customize tr lr fr wr nb).logg_rng = g.logg_rng ∧
    (g.customize tr lr fr wr nb).FeH_rng = g.FeH_rng ∧
    (g.customize tr lr fr wr nb).Teff_vals = g.Teff_vals ∧
    (g.customize tr lr fr wr nb).logg_vals = g.logg_vals ∧
    (g.customize tr lr fr wr nb).FeH_vals = g.FeH_vals ∧
    (g.customize tr lr fr wr nb).wave_rng = wr ∧
    (g.customize tr lr fr wr nb).n_bins = (if nb ≠ 0 then nb else g.n_bins) := by
  refine ⟨?_, ?_, ?_, ?_, ?_, ?_, ?_, ?_, ?_⟩ <;>
    simp [ModelGrid.customize, hemp, hTr, hLr, hFr, hTv, hLv, hFv]

/-- Closed witness for `customize_empty_keeps_table` at the concrete
grid `g0` and the empty-leaving ranges of the counterexample. -/
theorem customize_empty_keeps_table_witness :
    g0.data.filter (rowInRanges (5000, 6000) (0, 6) (-3, 3)) = [] ∧
    ((g0.customize (5000, 6000) (0, 6) (-3, 3) (1, 2) 7).data = g0.data ∧
      (g0.customize (5000, 6000) (0, 6) (-3, 3) (1, 2) 7).Teff_rng = g0.Teff_rng ∧
      (g0.customize (5000, 6000) (0, 6) (-3, 3) (1, 2) 7).logg_rng = g0.logg_rng ∧
      (g0.customize (5000, 6000) (0, 6) (-3, 3) (1, 2) 7).FeH_rng = g0.FeH_rng ∧
      (g0.customize (5000, 6000) (0, 6) (-3, 3) (1, 2) 7).Teff_vals = g0.Teff_vals ∧
      (g0.customize (5000, 6000) (0, 6) (-3, 3) (1, 2) 7).logg_vals = g0.logg_vals ∧
      (g0.customize (5000, 6000) (0, 6) (-3, 3) (1, 2) 7).FeH_vals = g0.FeH_vals ∧
      (g0.customize (5000, 6000) (0, 6) (-3, 3) (1, 2) 7).wave_rng = (1, 2) ∧
      (g0.customize (5000, 6000) (0, 6) (-3, 3) (1, 2) 7).n_bins =
        (if (7 : ℕ) ≠ 0 then 7 else g0.n_bins)) := by
  have hemp : g0.data.filter (rowInRanges (5000, 6000) (0, 6) (-3, 3)) = [] := by
    norm_num [g0, rowInRanges, List.filter]
  refine ⟨hemp, customize_empty_keeps_table g0 (5000, 6000) (0, 6) (-3, 3) (1, 2) 7
    hemp ?_ ?_ ?_ ?_ ?_ ?_⟩ <;>
    norm_num [g0, listMin, listMax, uniqueSorted, insertSorted, min_def, max_def]

end ExoCTKCore
